import Mathlib

/-!
# Verification of the markdown renderer and model selector components

A shallow embedding, in Lean 4, of `markdown-renderer.tsx` (the
`processUnicodeContent` normalizer, the markdown `code` / `img` component
mappers) and of the `ModelSelector` component (catalog merge, selection
commit, custom-model save/delete, keyboard handler, catalog comparator).

JavaScript strings are UTF-16 code-unit sequences; where lone surrogates
can arise (`processUnicodeContent`) we model a string as `List Nat` of
code units.  Elsewhere Lean `String` suffices.  React state reads inside
an event handler see the render-time values (`useState` setters do not
mutate the local closure), so each handler is modelled as a pure function
from the pre-state to the post-state, with every read taken from the
pre-state.
-/

set_option autoImplicit false

namespace Suna

/-- The JavaScript whitespace class used by `String.prototype.trim` and by
`Number()` coercion (ASCII whitespace plus NBSP, BOM and the line/paragraph
separators). -/
def isJsWs (c : Char) : Bool :=
  c = ' ' || c = '\t' || c = '\n' || c = '\r' ||
  c = '\x0b' || c = '\x0c' || c = ' ' || c = '﻿' ||
  c = ' ' || c = ' '

/-- JavaScript `String.prototype.trim`. -/
def jsTrim (s : String) : String :=
  ⟨((s.toList.dropWhile isJsWs).reverse.dropWhile isJsWs).reverse⟩

/-- JavaScript `String.prototype.startsWith` (list-based so the kernel can
evaluate it). -/
def jsStartsWith (s pre : String) : Bool :=
  pre.toList.isPrefixOf s.toList

/-- JavaScript `String.prototype.split` with a one-character separator and
no limit (`"a#b#c".split('#') = ["a","b","c"]`, `"".split('#') = [""]`). -/
def splitOnChar (sep : Char) : List Char → List (List Char)
  | [] => [[]]
  | c :: rest =>
    match splitOnChar sep rest with
    | [] => [[]]
    | h :: t => if c = sep then [] :: h :: t else (c :: h) :: t

/-- JavaScript `String.prototype.toLowerCase` (ASCII case mapping). -/
def jsToLower (s : String) : String :=
  ⟨s.toList.map Char.toLower⟩

/-- The numeric value of a hex digit code unit (`0-9`, `a-f`, `A-F`),
as matched by the character class `[0-9a-fA-F]`. -/
def hexDigitVal (u : Nat) : Option Nat :=
  if 0x30 ≤ u ∧ u ≤ 0x39 then some (u - 0x30)
  else if 0x61 ≤ u ∧ u ≤ 0x66 then some (u - 0x61 + 10)
  else if 0x41 ≤ u ∧ u ≤ 0x46 then some (u - 0x41 + 10)
  else none

/-- First replacement pass of `processUnicodeContent`:
`content.replace(/\\u([0-9a-fA-F]{4})/g, (_, cp) =>
String.fromCharCode(parseInt(cp, 16)))`.  The scan is left to right; a
match consumes backslash, `u` and four hex digits and emits the single
code unit they denote; the replacement text is not rescanned. -/
def replaceU4 : List Nat → List Nat
  | 0x5C :: 0x75 :: a :: b :: c :: d :: rest =>
    match hexDigitVal a, hexDigitVal b, hexDigitVal c, hexDigitVal d with
    | some ha, some hb, some hc, some hd =>
        (((ha * 16 + hb) * 16 + hc) * 16 + hd) :: replaceU4 rest
    | _, _, _, _ => 0x5C :: replaceU4 (0x75 :: a :: b :: c :: d :: rest)
  | u :: rest => u :: replaceU4 rest
  | [] => []

/-- Second replacement pass of `processUnicodeContent`:
`bmpProcessed.replace(/\\u([0-9a-fA-F]{8})/g, ...)` which emits
`String.fromCharCode(parseInt(cp.substring(0,4),16),
parseInt(cp.substring(4,8),16))` — two code units, the first four digits
then the last four. -/
def replaceU8 : List Nat → List Nat
  | 0x5C :: 0x75 :: a :: b :: c :: d :: e :: f :: g :: h :: rest =>
    match hexDigitVal a, hexDigitVal b, hexDigitVal c, hexDigitVal d,
          hexDigitVal e, hexDigitVal f, hexDigitVal g, hexDigitVal h with
    | some ha, some hb, some hc, some hd, some he, some hf, some hg, some hh =>
        (((ha * 16 + hb) * 16 + hc) * 16 + hd) ::
        (((he * 16 + hf) * 16 + hg) * 16 + hh) :: replaceU8 rest
    | _, _, _, _, _, _, _, _ =>
        0x5C :: replaceU8 (0x75 :: a :: b :: c :: d :: e :: f :: g :: h :: rest)
  | u :: rest => u :: replaceU8 rest
  | [] => []

/-- `processUnicodeContent` from `markdown-renderer.tsx`: the empty-input
guard, then the 4-digit pass over the whole input, then the 8-digit pass
over its result. -/
def processUnicodeContent (content : List Nat) : List Nat :=
  if content = [] then []
  else replaceU8 (replaceU4 content)

/-- UTF-16 code units of an ASCII Lean string (all inputs used in the
theorems are ASCII, where code unit = code point). -/
def asciiUnits (s : String) : List Nat :=
  s.toList.map Char.toNat

/-! ## Model selector: data model -/

/-- A catalog entry (`ModelOption` of `_use-model-selection`): the fields the
selector reads.  Built-in descriptors carry `isCustom = false` (the field is
optional in the source and absent on built-ins). -/
structure ModelOption where
  id : String
  label : String
  requiresSubscription : Bool
  top : Bool
  isCustom : Bool
deriving DecidableEq, Repr

/-- A stored custom model record (`CustomModel` of `_use-model-selection`):
`{id, label, apiKey, apiBase}`. -/
structure CustomModel where
  id : String
  label : String
  apiKey : String
  apiBase : String
deriving DecidableEq, Repr

/-- Modelled from the spec: `SubscriptionStatus` is declared in
`_use-model-selection` (not in the provided sources); the spec calls it a
tri-state: active / no_subscription / other. -/
inductive SubscriptionStatus where
  | active
  | noSubscription
  | other
deriving DecidableEq, Repr

/-! ## C2: the catalog merge (`enhancedModelOptions`)

The source builds a JavaScript `Map` keyed by model id.  A JS `Map`
preserves insertion order, and `set` on an existing key updates the value
in place without moving the key; we model it as an ordered association
list. -/

/-- An insertion-ordered map from model id to entry, as a `List`. -/
abbrev MMap := List (String × ModelOption)

/-- `modelMap.has(k)`. -/
def mapHas (m : MMap) (k : String) : Bool :=
  m.any (fun p => p.1 = k)

/-- `modelMap.get(k)` (first — and with unique keys, only — entry). -/
def mapGet (m : MMap) (k : String) : Option ModelOption :=
  (m.find? (fun p => p.1 = k)).map (fun p => p.2)

/-- `modelMap.set(k, v)`: in-place update when the key exists, else append. -/
def mapSet (m : MMap) (k : String) (v : ModelOption) : MMap :=
  if mapHas m k then m.map (fun p => if p.1 = k then (k, v) else p)
  else m ++ [(k, v)]

/-- `modelMap.set(model.id, {...model, isCustom: false})` for a built-in. -/
def addBuiltIn (m : MMap) (o : ModelOption) : MMap :=
  mapSet m o.id { o with isCustom := false }

/-- `model.label || formatModelName(model.id)` — the empty string is falsy.
`fmt` stands for the external `formatModelName` collaborator. -/
def customLabel (fmt : String → String) (c : CustomModel) : String :=
  if c.label = "" then fmt c.id else c.label

/-- The `modelToSet` literal built for a custom record. -/
def customToOption (fmt : String → String) (c : CustomModel) : ModelOption :=
  { id := c.id, label := customLabel fmt c, requiresSubscription := false
    top := false, isCustom := true }

/-- One step of the `currentCustomModels.forEach` body: fresh ids are
appended; an existing entry keeps its other fields but takes the custom
label and `isCustom := true`. -/
def addCustom (fmt : String → String) (m : MMap) (c : CustomModel) : MMap :=
  if mapHas m c.id then
    match mapGet m c.id with
    | some existing =>
        mapSet m c.id { existing with label := customLabel fmt c, isCustom := true }
    | none => m
  else mapSet m c.id (customToOption fmt c)

/-- `enhancedModelOptions`: fold all built-ins into the map, then all custom
records, then `Array.from(modelMap.values())`. -/
def enhancedModelOptions (fmt : String → String)
    (modelOptions : List ModelOption) (customModels : List CustomModel) :
    List ModelOption :=
  ((customModels.foldl (addCustom fmt) (modelOptions.foldl addBuiltIn [])).map
    (fun p => p.2))

/-- The merge contract as the spec words it: custom entries override
same-id built-ins in place (label and custom flag only), non-overridden
built-ins pass through unchanged in their original order, and genuinely
new custom entries are appended after all built-ins. -/
def mergeSpec (fmt : String → String)
    (builtIns : List ModelOption) (customs : List CustomModel) :
    List ModelOption :=
  builtIns.map (fun o =>
    match customs.find? (fun c => c.id = o.id) with
    | some c => { o with label := customLabel fmt c, isCustom := true }
    | none => o) ++
  (customs.filter (fun c => !(builtIns.any (fun o => o.id = c.id)))).map
    (customToOption fmt)

/-- The per-entry override applied by the custom pass to entries already in
the map (helper for the fold characterization). -/
def overrideBy (fmt : String → String) (cs : List CustomModel)
    (p : String × ModelOption) : String × ModelOption :=
  match cs.find? (fun c => c.id = p.1) with
  | some c => (p.1, { p.2 with label := customLabel fmt c, isCustom := true })
  | none => p

/-! ## Selector component state

Inside a React event handler every read of a `useState` value sees the
render-time value captured by the closure (the setters only schedule an
update), so a handler is a pure function from the pre-state, with all its
updates collected into the post-state.  `storedModel` and
`storedCustomModels` mirror the two `localStorage` keys (the successful
write path; write failures are caught and logged in the source). -/

/-- The add/edit mode of the custom-model dialog. -/
inductive DialogMode where
  | add
  | edit
deriving DecidableEq, Repr

/-- `CustomModelFormData` from `custom-model-dialog`. -/
structure CustomModelFormData where
  id : String
  label : String
  apiKey : String
  apiBase : String
deriving DecidableEq, Repr

/-- The `ModelSelector` state visible to the handlers under study. -/
structure SelectorState where
  selectedModel : String
  isOpen : Bool
  paywallOpen : Bool
  lockedModel : Option String
  searchQuery : String
  highlightedIndex : Int
  customModels : List CustomModel
  dialogMode : DialogMode
  editingModelId : Option String
  isCustomModelDialogOpen : Bool
  dialogInitialData : CustomModelFormData
  storedModel : Option String
  storedCustomModels : Option (List CustomModel)
deriving DecidableEq, Repr

/-! ## C3: `handleSelect` -/

/-- `handleSelect`: a custom target commits unconditionally; otherwise the
`canAccessModel` collaborator gates between committing and opening the
paywall dialog for the locked id. -/
def handleSelect (fmt : String → String) (modelOptions : List ModelOption)
    (canAccessModel : String → Bool) (id : String) (s : SelectorState) :
    SelectorState :=
  let opts := enhancedModelOptions fmt modelOptions s.customModels
  let isCustomModel :=
    ((opts.find? (fun opt => opt.id = id)).map (fun o => o.isCustom)).getD false
  if isCustomModel then { s with selectedModel := id, isOpen := false }
  else if canAccessModel id then { s with selectedModel := id, isOpen := false }
  else { s with lockedModel := some id, paywallOpen := true }

/-! ## C5 / C10: `handleSaveCustomModel` -/

/-- `String.prototype.replace` with a plain-string pattern: only the first
occurrence is replaced. -/
def listReplaceFirst (pat repl : List Char) : List Char → List Char
  | [] => if pat = [] then repl else []
  | c :: rest =>
    if pat.isPrefixOf (c :: rest) then repl ++ (c :: rest).drop pat.length
    else c :: listReplaceFirst pat repl rest

/-- String wrapper for `listReplaceFirst`. -/
def jsReplaceFirst (s pat repl : String) : String :=
  ⟨listReplaceFirst pat.toList repl.toList s.toList⟩

/-- `handleSaveCustomModel`: trims the id and label, no-ops on an empty id,
rejects a duplicate id (excluding the entry being edited), otherwise
appends (add) or replaces (edit), persists the catalog, closes the dialog
and dropdown, and re-selects when adding or when the edited entry was the
current selection. -/
def handleSaveCustomModel (fmt : String → String)
    (formData : CustomModelFormData) (s : SelectorState) : SelectorState :=
  let modelId := jsTrim formData.id
  let displayId :=
    if jsStartsWith modelId "openrouter/" then jsReplaceFirst modelId "openrouter/" ""
    else modelId
  let modelLabel :=
    if jsTrim formData.label = "" then fmt displayId else jsTrim formData.label
  if modelId = "" then s
  else if s.customModels.any (fun m =>
      decide (m.id = modelId) &&
      (decide (s.dialogMode = DialogMode.add) || decide (some m.id ≠ s.editingModelId))) then
    s
  else
    let newModel : CustomModel :=
      { id := modelId, label := modelLabel
        apiKey := formData.apiKey, apiBase := formData.apiBase }
    let updatedModels :=
      if s.dialogMode = DialogMode.add then s.customModels ++ [newModel]
      else s.customModels.map (fun m =>
        if some m.id = s.editingModelId then newModel else m)
    let changeSelection :=
      s.dialogMode = DialogMode.add ∨ some s.selectedModel = s.editingModelId
    { s with
      customModels := updatedModels
      storedCustomModels := some updatedModels
      isCustomModelDialogOpen := false
      dialogInitialData := { id := "", label := "", apiKey := "", apiBase := "" }
      editingModelId := none
      selectedModel := if changeSelection then modelId else s.selectedModel
      storedModel := if changeSelection then some modelId else s.storedModel
      isOpen := false
      highlightedIndex := -1 }

/-! ## C6: `handleDeleteCustomModel` -/

/-- `handleDeleteCustomModel`: filters the catalog by id, persists it, and
when the deleted id was selected falls back to the premium default
(`subscriptionStatus === 'active'`) or free default and persists that
selection.  The default ids are the imported `DEFAULT_PREMIUM_MODEL_ID` /
`DEFAULT_FREE_MODEL_ID` constants, passed here as parameters. -/
def handleDeleteCustomModel (premiumDefaultId freeDefaultId : String)
    (subscriptionStatus : SubscriptionStatus) (modelId : String)
    (s : SelectorState) : SelectorState :=
  let updatedCustomModels := s.customModels.filter (fun m => m.id ≠ modelId)
  let base :=
    { s with
      customModels := updatedCustomModels
      storedCustomModels := some updatedCustomModels
      isOpen := false
      highlightedIndex := -1 }
  if s.selectedModel = modelId then
    let defaultModelId :=
      if subscriptionStatus = SubscriptionStatus.active then premiumDefaultId
      else freeDefaultId
    { base with selectedModel := defaultModelId, storedModel := some defaultModelId }
  else base

/-! ## C9: the search-input keyboard handler -/

/-- Whether `needle` occurs as a contiguous run inside the second list. -/
def listContainsSub (needle : List Char) : List Char → Bool
  | [] => needle.isEmpty
  | c :: rest => needle.isPrefixOf (c :: rest) || listContainsSub needle rest

/-- JavaScript `String.prototype.includes`. -/
def jsIncludes (hay needle : String) : Bool :=
  listContainsSub needle.toList hay.toList

/-- The `filteredOptions` derived list: case-insensitive substring match of
the query against label or id. -/
def filteredOptions (opts : List ModelOption) (searchQuery : String) :
    List ModelOption :=
  opts.filter (fun opt =>
    jsIncludes (jsToLower opt.label) (jsToLower searchQuery) ||
    jsIncludes (jsToLower opt.id) (jsToLower searchQuery))

/-- The keys the handler distinguishes. -/
inductive Key where
  | arrowDown
  | arrowUp
  | enter
  | other
deriving DecidableEq, Repr

/-- `handleSearchInputKeyDown`: Down/Up cycle the highlighted index over
the filtered list; Enter commits the highlighted entry through
`handleSelect` only when `highlightedIndex >= 0` and the index is within
the filtered list. -/
def handleSearchInputKeyDown (fmt : String → String)
    (modelOptions : List ModelOption) (canAccessModel : String → Bool)
    (key : Key) (s : SelectorState) : SelectorState :=
  let filtered :=
    filteredOptions (enhancedModelOptions fmt modelOptions s.customModels)
      s.searchQuery
  match key with
  | Key.arrowDown =>
    { s with highlightedIndex :=
        if s.highlightedIndex < (filtered.length : Int) - 1 then
          s.highlightedIndex + 1
        else 0 }
  | Key.arrowUp =>
    { s with highlightedIndex :=
        if s.highlightedIndex > 0 then s.highlightedIndex - 1
        else (filtered.length : Int) - 1 }
  | Key.enter =>
    if s.highlightedIndex ≥ 0 then
      match filtered[s.highlightedIndex.toNat]? with
      | some selectedOption =>
          handleSelect fmt modelOptions canAccessModel selectedOption.id s
      | none => s
    else s
  | Key.other => s

/-! ## C7: the "all models" comparator -/

/-- Sign of the code-point lexicographic comparison of two char lists. -/
def listCompareChars : List Char → List Char → Int
  | [], [] => 0
  | [], _ :: _ => -1
  | _ :: _, [] => 1
  | a :: as, b :: bs =>
    if a.toNat < b.toNat then -1
    else if b.toNat < a.toNat then 1
    else listCompareChars as bs

/-- `String.prototype.localeCompare`, modelled as code-point lexicographic
comparison (locale collation idealized to lexicographic order). -/
def jsLocaleCompare (a b : String) : Int :=
  listCompareChars a.toList b.toList

/-- The comparator passed to `uniqueModels.sort` in the all-models view.
`rec` stands for `fun id => MODELS[id]?.recommended` (the `MODELS` table is
imported from `_use-model-selection`). -/
def modelCompare (rec : String → Bool) (a b : ModelOption) : Int :=
  let aRecommendedPaid := rec a.id && a.requiresSubscription
  let bRecommendedPaid := rec b.id && b.requiresSubscription
  if aRecommendedPaid && !bRecommendedPaid then -1
  else if !aRecommendedPaid && bRecommendedPaid then 1
  else if rec a.id && !(rec b.id) then -1
  else if !(rec a.id) && rec b.id then 1
  else if a.requiresSubscription && !b.requiresSubscription then -1
  else if !a.requiresSubscription && b.requiresSubscription then 1
  else jsLocaleCompare a.label b.label

/-- The category rank the spec describes: recommended-and-paid, then
recommended-and-free, then remaining paid, then the rest. -/
def modelRank (rec : String → Bool) (a : ModelOption) : Nat :=
  if rec a.id && a.requiresSubscription then 0
  else if rec a.id then 1
  else if a.requiresSubscription then 2
  else 3

/-- The spec's comparator: lexicographic on (category rank, label). -/
def rankLexCompare (rec : String → Bool) (a b : ModelOption) : Int :=
  if modelRank rec a < modelRank rec b then -1
  else if modelRank rec b < modelRank rec a then 1
  else jsLocaleCompare a.label b.label

/-! ## C8: the fenced-code component -/

/-- The regex word class `\w`. -/
def isWordChar (c : Char) : Bool :=
  c.isAlphanum || c = '_'

/-- `/language-(\w+)/.exec`: scan left to right for the literal
`language-` followed by at least one word character; the capture is the
maximal word-character run. -/
def langScan : List Char → Option (List Char)
  | [] => none
  | c :: rest =>
    if ("language-".toList).isPrefixOf (c :: rest) then
      let w := ((c :: rest).drop 9).takeWhile isWordChar
      if w.isEmpty then langScan rest else some w
    else langScan rest

/-- String wrapper for `langScan` (the first capture group, if any). -/
def execLangRegex (s : String) : Option String :=
  (langScan s.toList).map (fun w => ⟨w⟩)

/-- `String(children).replace(/\n$/, '')`: one trailing newline removed. -/
def stripTrailingNewline (s : String) : String :=
  if s.toList.getLast? = some '\n' then ⟨s.toList.dropLast⟩ else s

/-- The result of the `code` component: a plain inline `code` element, or
delegation to the external `CodeRenderer` with content and language. -/
inductive CodeRender where
  | inlineCode (className : Option String) (children : String)
  | delegated (content : String) (language : String)
deriving DecidableEq, Repr

/-- The `code` component mapper.  `className` is `none` when the node has
no class attribute; `children` is the stringified children.  `isInline`
is `!className || !match` (the empty class string is falsy). -/
def renderCode (className : Option String) (children : String) : CodeRender :=
  let cls := className.getD ""
  let m := execLangRegex cls
  let isInline :=
    (match className with
     | none => true
     | some str => str = "") || m.isNone
  if isInline then CodeRender.inlineCode className children
  else CodeRender.delegated (stripTrailingNewline children) (m.getD "")

/-! ## C4: the image component

`Number(s)` on a string follows the ECMAScript string-to-number grammar.
We model its result exactly over an idealized number line: NaN, the two
infinities, and exact scaled decimals `val num exp10` denoting
`num × 10 ^ exp10` (IEEE rounding of huge literals is not modelled — all
literals appearing in the claims are small integers, which doubles
represent exactly, with `exp10 = 0`). -/

/-- An idealized ECMAScript number; `val num exp10` denotes
`num × 10 ^ exp10`. -/
inductive JSNum where
  | nan
  | posInf
  | negInf
  | val (num : Int) (exp10 : Int)
deriving DecidableEq, Repr

/-- `isNaN(x)`. -/
def JSNum.isNaN : JSNum → Bool
  | JSNum.nan => true
  | _ => false

/-- `x > 0` (false for NaN; the sign of `num × 10 ^ exp10` is the sign of
`num`). -/
def JSNum.gtZero : JSNum → Bool
  | JSNum.posInf => true
  | JSNum.val num _ => decide (0 < num)
  | _ => false

/-- Base-10 value of a digit run. -/
def digitsToNat (ds : List Char) : Nat :=
  ds.foldl (fun n c => n * 10 + (c.toNat - 48)) 0

/-- The optional `ExponentPart` of a decimal literal; the whole rest of the
input must be consumed.  `[]` means no exponent (value `0`). -/
def parseExpPart : List Char → Option Int
  | [] => some 0
  | e :: rest =>
    if e = 'e' ∨ e = 'E' then
      match rest with
      | '+' :: ds =>
        if !ds.isEmpty && ds.all Char.isDigit then some (digitsToNat ds) else none
      | '-' :: ds =>
        if !ds.isEmpty && ds.all Char.isDigit then some (-(digitsToNat ds : Int))
        else none
      | ds =>
        if !ds.isEmpty && ds.all Char.isDigit then some (digitsToNat ds) else none
    else none

/-- `StrUnsignedDecimalLiteral` without the `Infinity` production:
`digits [. digits] [exp]` or `. digits [exp]`, consuming all input.  The
result is the exact value as (mantissa, decimal exponent): the integer
and fraction digits concatenated, scaled by `exp - fraction length`. -/
def parseUnsignedDec (cs : List Char) : Option (Int × Int) :=
  let intPart := cs.takeWhile Char.isDigit
  let rest := cs.drop intPart.length
  match rest with
  | '.' :: rest2 =>
    let fracPart := rest2.takeWhile Char.isDigit
    let rest3 := rest2.drop fracPart.length
    if intPart.isEmpty && fracPart.isEmpty then none
    else
      (parseExpPart rest3).map (fun e =>
        ((digitsToNat (intPart ++ fracPart) : Int), e - (fracPart.length : Int)))
  | _ =>
    if intPart.isEmpty then none
    else (parseExpPart rest).map (fun e => ((digitsToNat intPart : Int), e))

/-- `StrUnsignedDecimalLiteral` including `Infinity`. -/
def parseUnsignedTop (cs : List Char) : Option JSNum :=
  if cs = "Infinity".toList then some JSNum.posInf
  else (parseUnsignedDec cs).map (fun p => JSNum.val p.1 p.2)

/-- A non-decimal integer literal body in the given base, consuming all
input. -/
def parseRadix (base : Nat) (digVal : Char → Option Nat) (ds : List Char) :
    Option Nat :=
  if ds.isEmpty then none
  else
    ds.foldl (fun acc c =>
      match acc, digVal c with
      | some n, some d => some (n * base + d)
      | _, _ => none) (some 0)

/-- Hex digit value of a character. -/
def hexCharVal (c : Char) : Option Nat := hexDigitVal c.toNat

/-- Octal digit value of a character. -/
def octCharVal (c : Char) : Option Nat :=
  if '0' ≤ c ∧ c ≤ '7' then some (c.toNat - 48) else none

/-- Binary digit value of a character. -/
def binCharVal (c : Char) : Option Nat :=
  if c = '0' then some 0 else if c = '1' then some 1 else none

/-- ECMAScript `Number(string)`: trim JS whitespace; empty means `0`;
`0x`/`0o`/`0b` radix literals (unsigned only); otherwise an optionally
signed decimal literal or `Infinity`; anything else is NaN. -/
def toNumber (s : String) : JSNum :=
  let cs := ((s.toList.dropWhile isJsWs).reverse.dropWhile isJsWs).reverse
  match cs with
  | [] => JSNum.val 0 0
  | '0' :: 'x' :: ds =>
    match parseRadix 16 hexCharVal ds with
    | some n => JSNum.val n 0
    | none => JSNum.nan
  | '0' :: 'X' :: ds =>
    match parseRadix 16 hexCharVal ds with
    | some n => JSNum.val n 0
    | none => JSNum.nan
  | '0' :: 'o' :: ds =>
    match parseRadix 8 octCharVal ds with
    | some n => JSNum.val n 0
    | none => JSNum.nan
  | '0' :: 'O' :: ds =>
    match parseRadix 8 octCharVal ds with
    | some n => JSNum.val n 0
    | none => JSNum.nan
  | '0' :: 'b' :: ds =>
    match parseRadix 2 binCharVal ds with
    | some n => JSNum.val n 0
    | none => JSNum.nan
  | '0' :: 'B' :: ds =>
    match parseRadix 2 binCharVal ds with
    | some n => JSNum.val n 0
    | none => JSNum.nan
  | '+' :: ds =>
    match parseUnsignedTop ds with
    | some v => v
    | none => JSNum.nan
  | '-' :: ds =>
    match parseUnsignedTop ds with
    | some JSNum.posInf => JSNum.negInf
    | some (JSNum.val m e) => JSNum.val (-m) e
    | _ => JSNum.nan
  | ds =>
    match parseUnsignedTop ds with
    | some v => v
    | none => JSNum.nan

/-- The two render paths of the `img` component: the direct `<img>` element
(for `data:`/`blob:` URLs) and the managed `next/image` element with
explicit width and height. -/
inductive ImgRender where
  | unmanaged (src : String)
  | managed (src : String) (width height : JSNum)
deriving DecidableEq, Repr

/-- The `img` component mapper: split the source on `#`; a fragment
`<w>x<h>` whose two `Number()`-coerced parts are non-NaN and `> 0`
overrides the 500×300 defaults; `data:`/`blob:` URLs take the unmanaged
path (with the fragment-stripped URL), everything else the managed path. -/
def renderImg (src : String) : ImgRender :=
  let srcParts := splitOnChar '#' src.toList
  let url : String := ⟨srcParts.headD []⟩
  let hash := srcParts[1]?
  let wh : JSNum × JSNum :=
    match hash with
    | some hs =>
      if hs = [] then (JSNum.val 500 0, JSNum.val 300 0)
      else
        match (splitOnChar 'x' hs).map (fun d => toNumber ⟨d⟩) with
        | [d0, d1] =>
          if !d0.isNaN && !d1.isNaN && d0.gtZero && d1.gtZero then (d0, d1)
          else (JSNum.val 500 0, JSNum.val 300 0)
        | _ => (JSNum.val 500 0, JSNum.val 300 0)
    | none => (JSNum.val 500 0, JSNum.val 300 0)
  if jsStartsWith url "data:" || jsStartsWith url "blob:" then
    ImgRender.unmanaged url
  else ImgRender.managed url wh.1 wh.2

/-- A concrete selector state used to instantiate the theorems: the custom
model `custom-m` is in the catalog, `model-a` is selected, the dropdown is
open. -/
def sampleState : SelectorState :=
  { selectedModel := "model-a"
    isOpen := true
    paywallOpen := false
    lockedModel := none
    searchQuery := ""
    highlightedIndex := -1
    customModels := [{ id := "custom-m", label := "My model", apiKey := "k", apiBase := "u" }]
    dialogMode := DialogMode.add
    editingModelId := none
    isCustomModelDialogOpen := false
    dialogInitialData := { id := "", label := "", apiKey := "", apiBase := "" }
    storedModel := none
    storedCustomModels := none }

/-! ## Supporting lemmas -/

theorem splitOnChar_ne_nil (sep : Char) (l : List Char) :
    splitOnChar sep l ≠ [] := by
  induction l with
  | nil => simp [splitOnChar]
  | cons c rest ih =>
    simp only [splitOnChar]
    cases h : splitOnChar sep rest with
    | nil => exact absurd h ih
    | cons hh tt => by_cases hcs : c = sep <;> simp [hcs]

theorem isPrefixOf_splitOnChar_head (pre l : List Char) (hsep : '#' ∉ pre)
    (h : pre.isPrefixOf l = true) :
    pre.isPrefixOf ((splitOnChar '#' l).headD []) = true := by
  induction pre generalizing l with
  | nil => simp [List.isPrefixOf]
  | cons p ps ih =>
    cases l with
    | nil => simp [List.isPrefixOf] at h
    | cons c rest =>
      simp only [List.isPrefixOf, Bool.and_eq_true, beq_iff_eq] at h
      obtain ⟨rfl, hrest⟩ := h
      have hne : ¬(p = '#') := fun hq => hsep (hq ▸ List.mem_cons_self p ps)
      have ihr := ih rest (fun hm => hsep (List.mem_cons_of_mem p hm)) hrest
      simp only [splitOnChar]
      cases hs : splitOnChar '#' rest with
      | nil => exact absurd hs (splitOnChar_ne_nil '#' rest)
      | cons hh tt =>
        rw [hs, List.headD_cons] at ihr
        simp [if_neg hne, List.isPrefixOf, ihr]

theorem listReplaceFirst_of_prefix (pat l : List Char) (hne : pat ≠ [])
    (h : pat.isPrefixOf l = true) :
    listReplaceFirst pat [] l = l.drop pat.length := by
  cases l with
  | nil =>
    cases pat with
    | nil => exact absurd rfl hne
    | cons p ps => simp [List.isPrefixOf] at h
  | cons c rest => simp [listReplaceFirst, h]

/-! ### Lemmas for the catalog merge (C2) -/

theorem overrideBy_mk (fmt : String → String) (cs : List CustomModel)
    (k : String) (w : ModelOption) :
    overrideBy fmt cs (k, w) =
      match cs.find? (fun c => c.id = k) with
      | some c => (k, { w with label := customLabel fmt c, isCustom := true })
      | none => (k, w) := rfl

theorem find?_custom_eq_none (t : List CustomModel) (k : String)
    (hk : k ∉ t.map (fun c => c.id)) :
    t.find? (fun c => c.id = k) = none := by
  apply List.find?_eq_none.mpr
  intro c hc
  simp only [decide_eq_true_eq]
  intro h
  exact hk (by rw [← h]; exact List.mem_map_of_mem _ hc)

theorem find?_eq_self_of_mem (m : MMap) (hkeys : (m.map Prod.fst).Nodup)
    (p : String × ModelOption) (hp : p ∈ m) :
    m.find? (fun q => q.1 = p.1) = some p := by
  induction m with
  | nil => cases hp
  | cons q t ih =>
    rw [List.map_cons, List.nodup_cons] at hkeys
    rcases List.mem_cons.mp hp with rfl | hp2
    · exact List.find?_cons_of_pos _ (by simp)
    · have hqp : ¬(q.1 = p.1) := by
        intro h
        exact hkeys.1 (by rw [h]; exact List.mem_map_of_mem Prod.fst hp2)
      rw [List.find?_cons_of_neg _ (by simpa using hqp)]
      exact ih hkeys.2 hp2

theorem map_fst_update (m : MMap) (k : String) (v : ModelOption) :
    (m.map (fun p => if p.1 = k then (k, v) else p)).map Prod.fst =
      m.map Prod.fst := by
  rw [List.map_map]
  apply List.map_congr_left
  intro p _
  by_cases hp : p.1 = k <;> simp [hp]

theorem mapHas_iff (m : MMap) (x : String) :
    mapHas m x = true ↔ x ∈ m.map Prod.fst := by
  constructor
  · intro h
    obtain ⟨p, hp, hpx⟩ := List.any_eq_true.mp h
    have hpx2 : p.1 = x := by simpa using hpx
    rw [← hpx2]
    exact List.mem_map_of_mem Prod.fst hp
  · intro h
    obtain ⟨p, hp, hpx⟩ := List.mem_map.mp h
    exact List.any_eq_true.mpr ⟨p, hp, by simp [hpx]⟩

theorem mapHas_congr_keys (m₁ m₂ : MMap)
    (h : m₁.map Prod.fst = m₂.map Prod.fst) (x : String) :
    mapHas m₁ x = mapHas m₂ x := by
  cases h1 : mapHas m₁ x <;> cases h2 : mapHas m₂ x <;> try rfl
  · exact absurd ((mapHas_iff m₁ x).mpr (h ▸ (mapHas_iff m₂ x).mp h2))
      (by rw [h1]; decide)
  · exact absurd ((mapHas_iff m₂ x).mpr (h ▸ (mapHas_iff m₁ x).mp h1))
      (by rw [h2]; decide)

theorem mapHas_append_single (m : MMap) (k x : String) (v : ModelOption) :
    mapHas (m ++ [(k, v)]) x = (mapHas m x || decide (k = x)) := by
  simp [mapHas, List.any_append]

theorem mapHas_true_of_mem (m : MMap) (p : String × ModelOption)
    (hp : p ∈ m) : mapHas m p.1 = true :=
  List.any_eq_true.mpr ⟨p, hp, by simp⟩

/-- The built-in pass: folding `addBuiltIn` over descriptors whose ids are
fresh and pairwise distinct appends each as a map entry in order. -/
theorem foldl_addBuiltIn_eq (l : List ModelOption) (m : MMap)
    (hfresh : ∀ o ∈ l, mapHas m o.id = false)
    (hnd : (l.map (fun o => o.id)).Nodup) :
    l.foldl addBuiltIn m =
      m ++ l.map (fun o => (o.id, { o with isCustom := false })) := by
  induction l generalizing m with
  | nil => simp
  | cons o t ih =>
    rw [List.map_cons, List.nodup_cons] at hnd
    obtain ⟨hni, hndt⟩ := hnd
    have hfo : mapHas m o.id = false := hfresh o (List.mem_cons_self o t)
    have hstep : addBuiltIn m o = m ++ [(o.id, { o with isCustom := false })] := by
      simp [addBuiltIn, mapSet, hfo]
    have hf2 : ∀ x ∈ t,
        mapHas (m ++ [(o.id, { o with isCustom := false })]) x.id = false := by
      intro x hx
      rw [mapHas_append_single]
      have h1 : mapHas m x.id = false := hfresh x (List.mem_cons_of_mem o hx)
      have h2 : ¬(o.id = x.id) := fun h =>
        hni (by rw [h]; exact List.mem_map_of_mem _ hx)
      simp [h1, h2]
    rw [List.foldl_cons, hstep, ih _ hf2 hndt, List.append_assoc,
      List.singleton_append, List.map_cons]

/-- The custom pass: folding `addCustom` over records with pairwise
distinct ids overrides existing entries in place and appends the fresh
ones, in order, after everything already present. -/
theorem foldl_addCustom_eq (fmt : String → String) (cs : List CustomModel)
    (m : MMap) (hkeys : (m.map Prod.fst).Nodup)
    (hnd : (cs.map (fun c => c.id)).Nodup) :
    cs.foldl (addCustom fmt) m =
      m.map (overrideBy fmt cs) ++
        (cs.filter (fun c => !mapHas m c.id)).map
          (fun c => (c.id, customToOption fmt c)) := by
  induction cs generalizing m with
  | nil =>
    simp only [List.foldl_nil, List.filter_nil, List.map_nil, List.append_nil]
    have hid : ∀ p ∈ m, overrideBy fmt [] p = p := fun p _ => rfl
    rw [List.map_congr_left hid, List.map_id']
  | cons c t ih =>
    rw [List.map_cons, List.nodup_cons] at hnd
    obtain ⟨hci, hndt⟩ := hnd
    have hfindt : t.find? (fun x => x.id = c.id) = none :=
      find?_custom_eq_none t c.id hci
    by_cases hc : mapHas m c.id = true
    · obtain ⟨p0, hp0find⟩ : ∃ p0, m.find? (fun p => p.1 = c.id) = some p0 := by
        have hex : ∃ p ∈ m, decide (p.1 = c.id) = true := by
          simpa [mapHas, List.any_eq_true] using hc
        obtain ⟨p, hp, hpp⟩ := hex
        exact Option.isSome_iff_exists.mp (List.find?_isSome.mpr ⟨p, hp, hpp⟩)
      have hp0mem : p0 ∈ m := List.mem_of_find?_eq_some hp0find
      have hp0key : p0.1 = c.id := by simpa using List.find?_some hp0find
      have hstep : addCustom fmt m c =
          m.map (fun p => if p.1 = c.id then
            (c.id, { p0.2 with label := customLabel fmt c, isCustom := true })
            else p) := by
        simp [addCustom, hc, mapGet, hp0find, mapSet]
      have hkeys2 : ((m.map (fun p => if p.1 = c.id then
          (c.id, { p0.2 with label := customLabel fmt c, isCustom := true })
          else p)).map Prod.fst).Nodup := by
        rw [map_fst_update]; exact hkeys
      have hhas2 : ∀ x, mapHas (m.map (fun p => if p.1 = c.id then
          (c.id, { p0.2 with label := customLabel fmt c, isCustom := true })
          else p)) x = mapHas m x :=
        mapHas_congr_keys _ m (map_fst_update m c.id _)
      rw [List.foldl_cons, hstep, ih _ hkeys2 hndt]
      congr 1
      · rw [List.map_map]
        apply List.map_congr_left
        intro p hp
        by_cases hpk : p.1 = c.id
        · have hp0eq : p = p0 := by
            have hfp := find?_eq_self_of_mem m hkeys p hp
            rw [hpk] at hfp
            exact Option.some.inj (hfp.symm.trans hp0find)
          have hfc : (c :: t).find? (fun x => x.id = p.1) = some c :=
            List.find?_cons_of_pos _ (by simp [hpk])
          show overrideBy fmt t (if p.1 = c.id then _ else p) = _
          rw [if_pos hpk, overrideBy_mk, hfindt,
            show overrideBy fmt (c :: t) p =
              match (c :: t).find? (fun x => x.id = p.1) with
              | some c2 => (p.1, { p.2 with label := customLabel fmt c2, isCustom := true })
              | none => p from rfl, hfc]
          rw [hp0eq, hp0key]
        · have hfc : (c :: t).find? (fun x => x.id = p.1) =
              t.find? (fun x => x.id = p.1) :=
            List.find?_cons_of_neg _ (by simp; exact fun h => hpk h.symm)
          show overrideBy fmt t (if p.1 = c.id then _ else p) = overrideBy fmt (c :: t) p
          rw [if_neg hpk,
            show overrideBy fmt (c :: t) p =
              match (c :: t).find? (fun x => x.id = p.1) with
              | some c2 => (p.1, { p.2 with label := customLabel fmt c2, isCustom := true })
              | none => p from rfl, hfc]
          rfl
      · rw [List.filter_congr (fun x _ => by rw [hhas2 x.id]),
          List.filter_cons_of_neg (by simp [hc])]
    · have hcf : mapHas m c.id = false := by simpa using hc
      have hstep : addCustom fmt m c = m ++ [(c.id, customToOption fmt c)] := by
        simp [addCustom, hcf, mapSet]
      have hnotmem : ∀ p ∈ m, ¬(p.1 = c.id) := by
        intro p hp h
        have := mapHas_true_of_mem m p hp
        rw [h, hcf] at this
        exact absurd this (by decide)
      have hkeys2 : (((m ++ [(c.id, customToOption fmt c)]).map Prod.fst)).Nodup := by
        rw [List.map_append, List.nodup_append]
        refine ⟨hkeys, by simp, ?_⟩
        intro x hx hx2
        simp at hx2
        obtain ⟨p, hp, hpk⟩ := List.mem_map.mp hx
        exact hnotmem p hp (by rw [hpk, hx2])
      rw [List.foldl_cons, hstep, ih _ hkeys2 hndt]
      have hmap : (m ++ [(c.id, customToOption fmt c)]).map (overrideBy fmt t) =
          m.map (overrideBy fmt (c :: t)) ++ [(c.id, customToOption fmt c)] := by
        rw [List.map_append]
        congr 1
        · apply List.map_congr_left
          intro p hp
          have hpk := hnotmem p hp
          have hfc : (c :: t).find? (fun x => x.id = p.1) =
              t.find? (fun x => x.id = p.1) :=
            List.find?_cons_of_neg _ (by simp; exact fun h => hpk h.symm)
          show overrideBy fmt t p = overrideBy fmt (c :: t) p
          rw [show overrideBy fmt (c :: t) p =
              match (c :: t).find? (fun x => x.id = p.1) with
              | some c2 => (p.1, { p.2 with label := customLabel fmt c2, isCustom := true })
              | none => p from rfl, hfc]
          rfl
        · show [overrideBy fmt t (c.id, customToOption fmt c)] = _
          rw [overrideBy_mk, hfindt]
      have hfil : ∀ x ∈ t,
          (!mapHas (m ++ [(c.id, customToOption fmt c)]) x.id) =
            (!mapHas m x.id) := by
        intro x hx
        rw [mapHas_append_single]
        have : ¬(c.id = x.id) := fun h =>
          hci (by rw [h]; exact List.mem_map_of_mem _ hx)
        simp [this]
      rw [hmap, List.filter_congr hfil, List.append_assoc, List.singleton_append,
        List.filter_cons_of_pos (by simp [hcf]), List.map_cons]

theorem mapHas_map_emb (l : List ModelOption) (k : String) :
    mapHas (l.map (fun o => (o.id, { o with isCustom := false }))) k =
      l.any (fun o => o.id = k) := by
  induction l with
  | nil => rfl
  | cons o t ih => exact congrArg (fun b => (decide (o.id = k) || b)) ih

/-! ### Lemmas for the catalog comparator (C7) -/

theorem char_toNat_inj (a b : Char) (h : a.toNat = b.toNat) : a = b := by
  unfold Char.toNat at h
  exact Char.eq_of_val_eq (UInt32.toNat.inj h)

theorem listCompareChars_eq_zero_iff (as : List Char) :
    ∀ bs, listCompareChars as bs = 0 ↔ as = bs := by
  induction as with
  | nil =>
    intro bs
    cases bs <;> simp [listCompareChars]
  | cons a ta ih =>
    intro bs
    cases bs with
    | nil => simp [listCompareChars]
    | cons b bt =>
      simp only [listCompareChars]
      by_cases h1 : a.toNat < b.toNat
      · rw [if_pos h1]
        constructor
        · intro h; exact absurd h (by decide)
        · intro h
          injection h with ha _
          rw [ha] at h1
          exact absurd h1 (lt_irrefl _)
      · rw [if_neg h1]
        by_cases h2 : b.toNat < a.toNat
        · rw [if_pos h2]
          constructor
          · intro h; exact absurd h (by decide)
          · intro h
            injection h with ha _
            rw [ha] at h2
            exact absurd h2 (lt_irrefl _)
        · rw [if_neg h2]
          have hab : a = b := char_toNat_inj a b (by omega)
          rw [ih bt, hab]
          simp

theorem listCompareChars_neg (as : List Char) :
    ∀ bs, listCompareChars as bs = -(listCompareChars bs as) := by
  induction as with
  | nil =>
    intro bs
    cases bs <;> simp [listCompareChars]
  | cons a ta ih =>
    intro bs
    cases bs with
    | nil => simp [listCompareChars]
    | cons b bt =>
      simp only [listCompareChars]
      by_cases h1 : a.toNat < b.toNat
      · rw [if_pos h1, if_neg (by omega : ¬(b.toNat < a.toNat)), if_pos h1]
      · by_cases h2 : b.toNat < a.toNat
        · rw [if_neg h1, if_pos h2, if_pos h2]
          decide
        · rw [if_neg h1, if_neg h2, if_neg h2, if_neg h1]
          exact ih bt

theorem listCompareChars_trans (as : List Char) :
    ∀ bs cs, listCompareChars as bs ≤ 0 → listCompareChars bs cs ≤ 0 →
      listCompareChars as cs ≤ 0 := by
  induction as with
  | nil =>
    intro bs cs _ _
    cases cs <;> simp [listCompareChars]
  | cons a ta ih =>
    intro bs cs h1 h2
    cases bs with
    | nil => simp [listCompareChars] at h1
    | cons b bt =>
      cases cs with
      | nil => simp [listCompareChars] at h2
      | cons c ct =>
        simp only [listCompareChars] at h1 h2 ⊢
        by_cases hab : a.toNat < b.toNat
        · by_cases hbc : b.toNat < c.toNat
          · rw [if_pos (by omega : a.toNat < c.toNat)]
            decide
          · by_cases hcb : c.toNat < b.toNat
            · rw [if_neg hbc, if_pos hcb] at h2
              exact absurd h2 (by decide)
            · rw [if_pos (by omega : a.toNat < c.toNat)]
              decide
        · by_cases hba : b.toNat < a.toNat
          · rw [if_neg hab, if_pos hba] at h1
            exact absurd h1 (by decide)
          · rw [if_neg hab, if_neg hba] at h1
            by_cases hbc : b.toNat < c.toNat
            · rw [if_pos (by omega : a.toNat < c.toNat)]
              decide
            · by_cases hcb : c.toNat < b.toNat
              · rw [if_neg hbc, if_pos hcb] at h2
                exact absurd h2 (by decide)
              · rw [if_neg hbc, if_neg hcb] at h2
                rw [if_neg (by omega : ¬(a.toNat < c.toNat)),
                  if_neg (by omega : ¬(c.toNat < a.toNat))]
                exact ih bt ct h1 h2

theorem jsLocaleCompare_eq_zero_iff (s t : String) :
    jsLocaleCompare s t = 0 ↔ s = t := by
  unfold jsLocaleCompare
  rw [listCompareChars_eq_zero_iff]
  constructor
  · intro h
    cases s with
    | mk d1 =>
      cases t with
      | mk d2 => exact congrArg String.mk (by simpa using h)
  · intro h
    rw [h]

theorem jsLocaleCompare_neg (s t : String) :
    jsLocaleCompare s t = -(jsLocaleCompare t s) :=
  listCompareChars_neg s.toList t.toList

theorem jsLocaleCompare_trans (s t u : String)
    (h1 : jsLocaleCompare s t ≤ 0) (h2 : jsLocaleCompare t u ≤ 0) :
    jsLocaleCompare s u ≤ 0 :=
  listCompareChars_trans s.toList t.toList u.toList h1 h2

theorem modelCompare_eq_rankLex (rec : String → Bool) (a b : ModelOption) :
    modelCompare rec a b = rankLexCompare rec a b := by
  cases ha : rec a.id <;> cases hpa : a.requiresSubscription <;>
    cases hb : rec b.id <;> cases hpb : b.requiresSubscription <;>
      simp [modelCompare, rankLexCompare, modelRank, ha, hpa, hb, hpb]

theorem rankLex_le_zero_iff (rec : String → Bool) (x y : ModelOption) :
    rankLexCompare rec x y ≤ 0 ↔
      (modelRank rec x < modelRank rec y ∨
        (modelRank rec x = modelRank rec y ∧
          jsLocaleCompare x.label y.label ≤ 0)) := by
  unfold rankLexCompare
  by_cases h1 : modelRank rec x < modelRank rec y
  · rw [if_pos h1]
    constructor
    · intro _; exact Or.inl h1
    · intro _; decide
  · rw [if_neg h1]
    by_cases h2 : modelRank rec y < modelRank rec x
    · rw [if_pos h2]
      constructor
      · intro h; exact absurd h (by decide)
      · rintro (h | ⟨he, _⟩)
        · exact absurd h h1
        · omega
    · rw [if_neg h2]
      constructor
      · intro h; exact Or.inr ⟨by omega, h⟩
      · rintro (h | ⟨_, hl⟩)
        · exact absurd h h1
        · exact hl

/-! ## Claim theorems -/

/-- C2: merging the built-in and custom catalogs yields, for input lists
with pairwise-distinct ids (and built-ins not flagged custom), exactly the
spec's contract `mergeSpec`: unique ids, same-id built-ins overridden in
place with the custom label and `isCustom = true`, non-overridden
built-ins unchanged in their original order, genuinely new custom entries
appended after all built-ins — together with uniqueness of the resulting
ids and the spec's concrete example (built-ins a, b plus custom b/B2). -/
theorem C2_catalog_merge (fmt : String → String)
    (builtIns : List ModelOption) (customs : List CustomModel)
    (hB : (builtIns.map (fun o => o.id)).Nodup)
    (hC : (customs.map (fun c => c.id)).Nodup)
    (hBC : ∀ o ∈ builtIns, o.isCustom = false) :
    enhancedModelOptions fmt builtIns customs = mergeSpec fmt builtIns customs ∧
    ((enhancedModelOptions fmt builtIns customs).map (fun o => o.id)).Nodup ∧
    enhancedModelOptions fmt
        [⟨"a", "A", false, false, false⟩, ⟨"b", "B", false, false, false⟩]
        [⟨"b", "B2", "", ""⟩] =
      [⟨"a", "A", false, false, false⟩, ⟨"b", "B2", false, false, true⟩] := by
  have hm0 : builtIns.foldl addBuiltIn [] =
      builtIns.map (fun o => (o.id, { o with isCustom := false })) := by
    rw [foldl_addBuiltIn_eq builtIns [] (fun o _ => rfl) hB, List.nil_append]
  have hkeys0 : ((builtIns.map
      (fun o => (o.id, { o with isCustom := false }))).map Prod.fst).Nodup := by
    rw [List.map_map]
    exact hB
  have hmain : enhancedModelOptions fmt builtIns customs =
      mergeSpec fmt builtIns customs := by
    unfold enhancedModelOptions mergeSpec
    rw [hm0, foldl_addCustom_eq fmt customs _ hkeys0 hC, List.map_append]
    congr 1
    · rw [List.map_map, List.map_map]
      apply List.map_congr_left
      intro o ho
      show (overrideBy fmt customs (o.id, { o with isCustom := false })).2 =
        (match customs.find? (fun c => c.id = o.id) with
         | some c => { o with label := customLabel fmt c, isCustom := true }
         | none => o)
      rw [overrideBy_mk]
      cases hf : customs.find? (fun c => c.id = o.id) with
      | none =>
        show ({ o with isCustom := false } : ModelOption) = o
        have hoc := hBC o ho
        cases o with
        | mk a b c d e =>
          have he : e = false := hoc
          subst he
          rfl
      | some c =>
        cases o
        rfl
    · rw [List.map_map]
      have hfil : customs.filter (fun c => !mapHas
          (builtIns.map (fun o => (o.id, { o with isCustom := false }))) c.id) =
          customs.filter (fun c => !(builtIns.any (fun o => o.id = c.id))) := by
        apply List.filter_congr
        intro c _
        rw [mapHas_map_emb]
      rw [hfil]
      apply List.map_congr_left
      intro c _
      rfl
  refine ⟨hmain, ?_, by rfl⟩
  rw [hmain]
  unfold mergeSpec
  rw [List.map_append, List.nodup_append]
  refine ⟨?_, ?_, ?_⟩
  · rw [List.map_map]
    have hids : builtIns.map ((fun o => o.id) ∘ (fun o =>
        match customs.find? (fun c => c.id = o.id) with
        | some c => { o with label := customLabel fmt c, isCustom := true }
        | none => o)) = builtIns.map (fun o => o.id) := by
      apply List.map_congr_left
      intro o _
      show ((match customs.find? (fun c => c.id = o.id) with
        | some c => { o with label := customLabel fmt c, isCustom := true }
        | none => o : ModelOption)).id = o.id
      cases customs.find? (fun c => c.id = o.id) <;> rfl
    rw [hids]
    exact hB
  · rw [List.map_map]
    have hids2 : (customs.filter
        (fun c => !(builtIns.any (fun o => o.id = c.id)))).map
          ((fun o => o.id) ∘ customToOption fmt) =
        (customs.filter
          (fun c => !(builtIns.any (fun o => o.id = c.id)))).map
          (fun c => c.id) :=
      List.map_congr_left (fun c _ => rfl)
    rw [hids2]
    exact hC.sublist (List.Sublist.map _ (List.filter_sublist customs))
  · intro x hx1 hx2
    rw [List.map_map] at hx1 hx2
    obtain ⟨o, ho, hox⟩ := List.mem_map.mp hx1
    obtain ⟨c, hc, hcx⟩ := List.mem_map.mp hx2
    obtain ⟨hcm, hcq⟩ := List.mem_filter.mp hc
    have ho2 : o.id = x := by
      rw [← hox]
      show o.id = ((match customs.find? (fun c2 => c2.id = o.id) with
        | some c2 => { o with label := customLabel fmt c2, isCustom := true }
        | none => o : ModelOption)).id
      cases customs.find? (fun c2 => c2.id = o.id) <;> rfl
    have hc2 : c.id = x := hcx
    have hany : builtIns.any (fun o2 => o2.id = c.id) = false := by
      simpa using hcq
    have htrue : builtIns.any (fun o2 => o2.id = c.id) = true :=
      List.any_eq_true.mpr ⟨o, ho, by simp [ho2, hc2]⟩
    rw [hany] at htrue
    exact absurd htrue (by decide)

theorem C2_catalog_merge_witness :
    enhancedModelOptions (fun i => i)
        [⟨"a", "A", false, false, false⟩] [⟨"x", "X", "", ""⟩] =
      mergeSpec (fun i => i)
        [⟨"a", "A", false, false, false⟩] [⟨"x", "X", "", ""⟩] :=
  (C2_catalog_merge (fun i => i)
    [⟨"a", "A", false, false, false⟩] [⟨"x", "X", "", ""⟩]
    (by decide) (by decide) (by decide)).1

/-- C1: the spec claims `processUnicodeContent` turns the literal text
`A` into `A` (true) and the 8-hex-digit form `\u0001F600` into the
surrogate pair ⟨U+D83D, U+DE00⟩.  The second part fails: because the
4-digit pass runs first over the whole input, it consumes `\u0001` and
leaves `F600` as literal text, so the 8-digit pattern never matches its
own escape prefix — the code contradicts its own comment announcing
supplementary-plane processing.  This theorem evaluates the code at both
inputs. -/
theorem C1_unicode_normalizer_eval :
    processUnicodeContent (asciiUnits "\\u0041") = [0x41] ∧
    processUnicodeContent (asciiUnits "\\u0001F600") =
      [0x1, 0x46, 0x36, 0x30, 0x30] ∧
    processUnicodeContent (asciiUnits "\\u0001F600") ≠ [0xD83D, 0xDE00] := by
  refine ⟨by decide, by decide, by decide⟩

/-- C3: `handleSelect` commits a custom target unconditionally (the result
does not depend on `canAccessModel`, which the quantification over
`canAccessModel` expresses) and closes the dropdown; a non-custom
accessible target commits and closes; a non-custom inaccessible target
sets the paywall state for that id and leaves everything else — the
selection and the open dropdown included — unchanged. -/
theorem C3_handleSelect_commit_and_gating (fmt : String → String)
    (modelOptions : List ModelOption) (canAccessModel : String → Bool)
    (id : String) (s : SelectorState) :
    ((((enhancedModelOptions fmt modelOptions s.customModels).find?
        (fun opt => opt.id = id)).map (fun o => o.isCustom)).getD false = true →
      handleSelect fmt modelOptions canAccessModel id s =
        { s with selectedModel := id, isOpen := false }) ∧
    ((((enhancedModelOptions fmt modelOptions s.customModels).find?
        (fun opt => opt.id = id)).map (fun o => o.isCustom)).getD false = false →
      canAccessModel id = true →
      handleSelect fmt modelOptions canAccessModel id s =
        { s with selectedModel := id, isOpen := false }) ∧
    ((((enhancedModelOptions fmt modelOptions s.customModels).find?
        (fun opt => opt.id = id)).map (fun o => o.isCustom)).getD false = false →
      canAccessModel id = false →
      handleSelect fmt modelOptions canAccessModel id s =
        { s with lockedModel := some id, paywallOpen := true }) := by
  refine ⟨fun hc => ?_, fun hc ha => ?_, fun hc ha => ?_⟩
  · simp [handleSelect, hc]
  · simp [handleSelect, hc, ha]
  · simp [handleSelect, hc, ha]

theorem C3_handleSelect_witness :
    handleSelect (fun i => i) [] (fun _ => false) "custom-m" sampleState =
      { sampleState with selectedModel := "custom-m", isOpen := false } :=
  (C3_handleSelect_commit_and_gating (fun i => i) [] (fun _ => false)
    "custom-m" sampleState).1 (by decide)

/-- C5: `handleSaveCustomModel` trims the id and label; an id that trims
to empty makes the whole operation a no-op; an id equal to an existing
custom id (not the entry being edited) is rejected with the state — the
catalog and both storage mirrors included — unchanged.  On a successful
add the appended entry carries the trimmed id and trimmed label. -/
theorem C5_save_rejects_empty_and_duplicate (fmt : String → String)
    (formData : CustomModelFormData) (s : SelectorState) :
    (jsTrim formData.id = "" → handleSaveCustomModel fmt formData s = s) ∧
    (s.customModels.any (fun m =>
        decide (m.id = jsTrim formData.id) &&
        (decide (s.dialogMode = DialogMode.add) ||
          decide (some m.id ≠ s.editingModelId))) = true →
      handleSaveCustomModel fmt formData s = s) ∧
    (jsTrim formData.id ≠ "" →
      s.customModels.any (fun m =>
        decide (m.id = jsTrim formData.id) &&
        (decide (s.dialogMode = DialogMode.add) ||
          decide (some m.id ≠ s.editingModelId))) = false →
      s.dialogMode = DialogMode.add →
      (handleSaveCustomModel fmt formData s).customModels =
        s.customModels ++
          [{ id := jsTrim formData.id
             label :=
               if jsTrim formData.label = "" then
                 fmt (if jsStartsWith (jsTrim formData.id) "openrouter/" then
                        jsReplaceFirst (jsTrim formData.id) "openrouter/" ""
                      else jsTrim formData.id)
               else jsTrim formData.label
             apiKey := formData.apiKey
             apiBase := formData.apiBase }] ∧
      (handleSaveCustomModel fmt formData s).storedCustomModels =
        some (handleSaveCustomModel fmt formData s).customModels) := by
  refine ⟨fun he => ?_, fun hd => ?_, fun he hd hm => ?_⟩
  · simp [handleSaveCustomModel, he]
  · by_cases he : jsTrim formData.id = ""
    · simp [handleSaveCustomModel, he]
    · simp only [handleSaveCustomModel]
      rw [if_neg he, hd]
      simp
  · simp only [handleSaveCustomModel]
    rw [if_neg he, hd]
    simp [hm]

theorem C5_save_witness :
    handleSaveCustomModel (fun i => i)
      { id := " custom-m ", label := "L", apiKey := "", apiBase := "" }
      sampleState = sampleState :=
  (C5_save_rejects_empty_and_duplicate (fun i => i)
    { id := " custom-m ", label := "L", apiKey := "", apiBase := "" }
    sampleState).2.1 (by decide)

/-- C6: deleting the currently selected custom model makes the selection
fall back to the premium default exactly when the subscription status is
`active` and to the free default otherwise, and persists that fallback;
deleting a non-selected model leaves the selection and its storage mirror
unchanged.  The catalog always becomes the id-filtered list. -/
theorem C6_delete_selection_fallback (premiumDefaultId freeDefaultId : String)
    (subscriptionStatus : SubscriptionStatus) (modelId : String)
    (s : SelectorState) :
    ((handleDeleteCustomModel premiumDefaultId freeDefaultId
        subscriptionStatus modelId s).customModels =
      s.customModels.filter (fun m => m.id ≠ modelId)) ∧
    (s.selectedModel = modelId →
      (handleDeleteCustomModel premiumDefaultId freeDefaultId
          subscriptionStatus modelId s).selectedModel =
        (if subscriptionStatus = SubscriptionStatus.active then premiumDefaultId
         else freeDefaultId) ∧
      (handleDeleteCustomModel premiumDefaultId freeDefaultId
          subscriptionStatus modelId s).storedModel =
        some (if subscriptionStatus = SubscriptionStatus.active then premiumDefaultId
              else freeDefaultId)) ∧
    (s.selectedModel ≠ modelId →
      (handleDeleteCustomModel premiumDefaultId freeDefaultId
          subscriptionStatus modelId s).selectedModel = s.selectedModel ∧
      (handleDeleteCustomModel premiumDefaultId freeDefaultId
          subscriptionStatus modelId s).storedModel = s.storedModel) := by
  refine ⟨?_, fun hsel => ?_, fun hsel => ?_⟩
  · by_cases hsel : s.selectedModel = modelId <;>
      simp [handleDeleteCustomModel, hsel]
  · simp [handleDeleteCustomModel, hsel]
  · simp [handleDeleteCustomModel, hsel]

theorem C6_delete_witness :
    (handleDeleteCustomModel "premium-id" "free-id"
        SubscriptionStatus.noSubscription "model-a" sampleState).selectedModel =
      "free-id" :=
  ((C6_delete_selection_fallback "premium-id" "free-id"
    SubscriptionStatus.noSubscription "model-a" sampleState).2.1 (by decide)).1

/-- C8: a code node whose class matches `language-<word>` is delegated to
the external renderer with the matched word as language and the children
with exactly one trailing newline removed; a node with no class, an empty
class, or a non-matching class renders as plain inline code. -/
theorem C8_code_delegation (cls children : String) :
    (renderCode (some "language-python") "print(1)\n" =
      CodeRender.delegated "print(1)" "python") ∧
    (renderCode none children = CodeRender.inlineCode none children) ∧
    (execLangRegex cls = none →
      renderCode (some cls) children = CodeRender.inlineCode (some cls) children) ∧
    (∀ w, execLangRegex cls = some w →
      renderCode (some cls) children =
        CodeRender.delegated (stripTrailingNewline children) w) ∧
    (stripTrailingNewline "x\n\n" = "x\n") := by
  refine ⟨by decide, by simp [renderCode], fun hn => ?_, fun w hw => ?_, by decide⟩
  · simp [renderCode, hn]
  · have hcls : ¬(cls = "") := by
      intro h
      rw [h] at hw
      simp [execLangRegex, langScan] at hw
    simp [renderCode, hw, hcls]

theorem C8_code_witness :
    renderCode (some "language-rust") "fn main()\n" =
      CodeRender.delegated "fn main()" "rust" :=
  (C8_code_delegation "language-rust" "fn main()\n").2.2.2.1 "rust" (by decide)

/-- C9: in the search-input keyboard handler, Enter with a negative
highlighted index (including the initial `-1`) leaves the state exactly
unchanged; Enter with an index past the filtered list also commits
nothing; Enter commits through `handleSelect` exactly when the index is
at least 0 and within the filtered list. -/
theorem C9_enter_requires_highlight (fmt : String → String)
    (modelOptions : List ModelOption) (canAccessModel : String → Bool)
    (s : SelectorState) :
    (s.highlightedIndex < 0 →
      handleSearchInputKeyDown fmt modelOptions canAccessModel Key.enter s = s) ∧
    (((filteredOptions (enhancedModelOptions fmt modelOptions s.customModels)
        s.searchQuery).length : Int) ≤ s.highlightedIndex →
      handleSearchInputKeyDown fmt modelOptions canAccessModel Key.enter s = s) ∧
    (∀ opt, 0 ≤ s.highlightedIndex →
      (filteredOptions (enhancedModelOptions fmt modelOptions s.customModels)
        s.searchQuery)[s.highlightedIndex.toNat]? = some opt →
      handleSearchInputKeyDown fmt modelOptions canAccessModel Key.enter s =
        handleSelect fmt modelOptions canAccessModel opt.id s) := by
  refine ⟨fun hneg => ?_, fun hlen => ?_, fun opt hge hopt => ?_⟩
  · simp [handleSearchInputKeyDown, not_le.mpr hneg]
  · have hge : (0 : Int) ≤ s.highlightedIndex :=
      le_trans (Int.ofNat_nonneg _) hlen
    have hnone :
        (filteredOptions (enhancedModelOptions fmt modelOptions s.customModels)
          s.searchQuery)[s.highlightedIndex.toNat]? = none := by
      apply List.getElem?_eq_none
      omega
    simp [handleSearchInputKeyDown, hge, hnone]
  · simp [handleSearchInputKeyDown, hge, hopt]

theorem C9_enter_witness :
    handleSearchInputKeyDown (fun i => i) [] (fun _ => true) Key.enter
      sampleState = sampleState :=
  (C9_enter_requires_highlight (fun i => i) [] (fun _ => true)
    sampleState).1 (by decide)

/-- C10: when the saved label trims to empty, the stored label is the
`formatModelName` collaborator applied to the id with one leading
`openrouter/` prefix removed (`label = fmt (id minus the 11-character
prefix)` when the prefix is present, `fmt id` otherwise), while the
stored id keeps the prefix unchanged. -/
theorem C10_label_from_stripped_id (fmt : String → String)
    (formData : CustomModelFormData) (s : SelectorState) :
    (jsTrim formData.label = "" →
      jsTrim formData.id ≠ "" →
      s.customModels.any (fun m =>
        decide (m.id = jsTrim formData.id) &&
        (decide (s.dialogMode = DialogMode.add) ||
          decide (some m.id ≠ s.editingModelId))) = false →
      s.dialogMode = DialogMode.add →
      (jsStartsWith (jsTrim formData.id) "openrouter/" = true →
        (handleSaveCustomModel fmt formData s).customModels =
          s.customModels ++
            [{ id := jsTrim formData.id
               label := fmt ⟨(jsTrim formData.id).toList.drop 11⟩
               apiKey := formData.apiKey
               apiBase := formData.apiBase }]) ∧
      (jsStartsWith (jsTrim formData.id) "openrouter/" = false →
        (handleSaveCustomModel fmt formData s).customModels =
          s.customModels ++
            [{ id := jsTrim formData.id
               label := fmt (jsTrim formData.id)
               apiKey := formData.apiKey
               apiBase := formData.apiBase }])) := by
  intro hlab hid hdup hmode
  constructor
  · intro hpre
    have hrep : jsReplaceFirst (jsTrim formData.id) "openrouter/" "" =
        ⟨(jsTrim formData.id).toList.drop 11⟩ := by
      have hpreL : ("openrouter/".toList).isPrefixOf (jsTrim formData.id).toList = true := hpre
      unfold jsReplaceFirst
      have h0 : ("" : String).toList = ([] : List Char) := rfl
      rw [h0, listReplaceFirst_of_prefix _ _ (by decide) hpreL]
      rfl
    simp only [handleSaveCustomModel]
    rw [if_neg hid, hdup]
    simp [hmode, hlab, hpre, hrep]
  · intro hpre
    simp only [handleSaveCustomModel]
    rw [if_neg hid, hdup]
    simp [hmode, hlab, hpre]

theorem C10_label_witness :
    (handleSaveCustomModel (fun i => String.append i "!")
      { id := " openrouter/gpt-x ", label := "  ", apiKey := "", apiBase := "" }
      sampleState).customModels =
      sampleState.customModels ++
        [{ id := "openrouter/gpt-x", label := "gpt-x!", apiKey := "", apiBase := "" }] := by
  have h := (C10_label_from_stripped_id (fun i => String.append i "!")
    { id := " openrouter/gpt-x ", label := "  ", apiKey := "", apiBase := "" }
    sampleState (by decide) (by decide) (by decide) (by decide)).1 (by decide)
  exact h

/-- C7 counterexample: the comparator is not a strict total order on the
displayed entries — two distinct entries (different ids) with equal labels
and equal category rank compare as 0. -/
theorem C7_strict_order_counterexample :
    modelCompare (fun _ => false)
      ⟨"a", "L", false, false, false⟩ ⟨"b", "L", false, false, false⟩ = 0 ∧
    (⟨"a", "L", false, false, false⟩ : ModelOption) ≠
      ⟨"b", "L", false, false, false⟩ := by
  exact ⟨by decide, by decide⟩

/-- C7 (amended): the comparator equals the rank-lexicographic order the
spec describes — recommended-and-paid first, then recommended-and-free,
then remaining paid, then the rest, with label comparison breaking the
remaining rank ties — and it is a total preorder (antisymmetric in sign,
transitive) whose zero ties are exactly equal-rank equal-label pairs, so
it is a strict total order only on entries with pairwise distinct
(rank, label) pairs, not on all displayed entries. -/
theorem C7_comparator_order (rec : String → Bool) (a b c : ModelOption) :
    modelCompare rec a b = rankLexCompare rec a b ∧
    (modelCompare rec a b = 0 ↔
      (modelRank rec a = modelRank rec b ∧ a.label = b.label)) ∧
    modelCompare rec a b = -(modelCompare rec b a) ∧
    (modelCompare rec a b ≤ 0 → modelCompare rec b c ≤ 0 →
      modelCompare rec a c ≤ 0) := by
  refine ⟨modelCompare_eq_rankLex rec a b, ?_, ?_, ?_⟩
  · rw [modelCompare_eq_rankLex]
    unfold rankLexCompare
    by_cases h1 : modelRank rec a < modelRank rec b
    · rw [if_pos h1]
      constructor
      · intro h; exact absurd h (by decide)
      · rintro ⟨he, _⟩; omega
    · rw [if_neg h1]
      by_cases h2 : modelRank rec b < modelRank rec a
      · rw [if_pos h2]
        constructor
        · intro h; exact absurd h (by decide)
        · rintro ⟨he, _⟩; omega
      · rw [if_neg h2, jsLocaleCompare_eq_zero_iff]
        constructor
        · intro h; exact ⟨by omega, h⟩
        · rintro ⟨_, h⟩; exact h
  · rw [modelCompare_eq_rankLex, modelCompare_eq_rankLex]
    unfold rankLexCompare
    by_cases h1 : modelRank rec a < modelRank rec b
    · rw [if_pos h1, if_neg (by omega : ¬(modelRank rec b < modelRank rec a)),
        if_pos h1]
    · by_cases h2 : modelRank rec b < modelRank rec a
      · rw [if_neg h1, if_pos h2, if_pos h2]
        decide
      · rw [if_neg h1, if_neg h2, if_neg h2, if_neg h1]
        exact jsLocaleCompare_neg _ _
  · intro h1 h2
    rw [modelCompare_eq_rankLex] at h1 h2 ⊢
    rw [rankLex_le_zero_iff] at h1 h2 ⊢
    rcases h1 with h1 | ⟨h1e, h1l⟩ <;> rcases h2 with h2 | ⟨h2e, h2l⟩
    · exact Or.inl (by omega)
    · exact Or.inl (by omega)
    · exact Or.inl (by omega)
    · exact Or.inr ⟨by omega, jsLocaleCompare_trans _ _ _ h1l h2l⟩

theorem C7_comparator_order_witness :
    modelCompare (fun _ => false)
      ⟨"a", "A", false, false, false⟩ ⟨"c", "C", false, false, false⟩ ≤ 0 :=
  (C7_comparator_order (fun _ => false)
    ⟨"a", "A", false, false, false⟩ ⟨"b", "B", false, false, false⟩
    ⟨"c", "C", false, false, false⟩).2.2.2 (by decide) (by decide)

/-- C4: the `img` component reads explicit dimensions from a `#WxH`
fragment when both `Number()`-coerced parts are non-NaN and strictly
positive (`foo.png#300x200` gives 300×200), falls back to 500×300
otherwise (`abcxdef`, `0x0`), routes every source whose fragment-stripped
URL starts with `data:` or `blob:` — in particular every source that
itself starts that way, whatever the fragment — to the direct unmanaged
element, and routes everything else to the managed element with the
resolved dimensions. -/
theorem C4_img_dimensions_and_routing (src : String) :
    (renderImg "foo.png#300x200" =
      ImgRender.managed "foo.png" (JSNum.val 300 0) (JSNum.val 200 0)) ∧
    (renderImg "foo.png#abcxdef" =
      ImgRender.managed "foo.png" (JSNum.val 500 0) (JSNum.val 300 0)) ∧
    (renderImg "foo.png#0x0" =
      ImgRender.managed "foo.png" (JSNum.val 500 0) (JSNum.val 300 0)) ∧
    (renderImg "data:image/png;base64,AAAA#300x200" =
      ImgRender.unmanaged "data:image/png;base64,AAAA") ∧
    (jsStartsWith src "data:" = true ∨ jsStartsWith src "blob:" = true →
      renderImg src =
        ImgRender.unmanaged ⟨(splitOnChar '#' src.toList).headD []⟩) ∧
    ((jsStartsWith ⟨(splitOnChar '#' src.toList).headD []⟩ "data:" ||
        jsStartsWith ⟨(splitOnChar '#' src.toList).headD []⟩ "blob:") = false →
      ∃ w h, renderImg src =
        ImgRender.managed ⟨(splitOnChar '#' src.toList).headD []⟩ w h) := by
  refine ⟨by decide, by decide, by decide, by decide, fun hd => ?_, fun hm => ?_⟩
  · have hurl : (jsStartsWith ⟨(splitOnChar '#' src.toList).headD []⟩ "data:" ||
        jsStartsWith ⟨(splitOnChar '#' src.toList).headD []⟩ "blob:") = true := by
      rcases hd with hd | hd
      · have h1 : jsStartsWith (⟨(splitOnChar '#' src.toList).headD []⟩ : String)
            "data:" = true :=
          isPrefixOf_splitOnChar_head ("data:".toList) src.toList (by decide) hd
        rw [h1, Bool.true_or]
      · have h2 : jsStartsWith (⟨(splitOnChar '#' src.toList).headD []⟩ : String)
            "blob:" = true :=
          isPrefixOf_splitOnChar_head ("blob:".toList) src.toList (by decide) hd
        rw [h2, Bool.or_true]
    simp only [renderImg]
    rw [if_pos hurl]
  · simp only [renderImg]
    rw [if_neg (show ¬_ by rw [hm]; decide)]
    exact ⟨_, _, rfl⟩

theorem C4_img_witness :
    renderImg "data:text/plain#9x9" = ImgRender.unmanaged "data:text/plain" :=
  (C4_img_dimensions_and_routing "data:text/plain#9x9").2.2.2.2.1
    (Or.inl (by decide))

end Suna
